import Mathlib

/-!
Verification of the edge-expr time-series cache, change detector, publish
scheduler and value codec against its natural-language specification.

Shallow embedding conventions:
* Go `time.Time` is modelled as `Int` (an instant on a linear clock);
  `*time.Time` becomes `Option Int`; `time.Duration` becomes `Int`.
  `t.Equal u` is `t = u`, `t.Before u` is `t < u`, `t.After u` is `u < t`,
  `now.Sub t` is `now - t`.
* Go `float64` is modelled as `Rat` (exact arithmetic; NaN/Inf are outside
  the model).  `math.MaxFloat64` is the exact rational value of that constant.
* Go byte slices are `List Nat` (each element a byte value).
* Window strings are modelled by the outcome of `time.ParseDuration`:
  `Option Int`, `none` standing for an unparsable string.
* Go's dynamic casts `any(x).(float64)` etc. are modelled by an explicit
  cast function `T → Option U` supplied at each call site, exactly mirroring
  the `value, ok :=` pattern of the source.
* Errors are an inductive enumeration; each constructor corresponds to one
  distinct error message of the source (see `CacheErr`).
-/

/-- Go `float64`, modelled exactly as a rational. -/
abbrev F64 := Rat

/-- Model of `math.MaxFloat64` = (2^53 − 1) · 2^971, the exact value of the Go constant. -/
def maxFloat64 : F64 := (2 ^ 53 - 1) * 2 ^ 971

/-- Model of `Point[T]` from part_001: a value with an optional timestamp. -/
structure Point (T : Type) where
  value : T
  timestamp : Option Int
deriving DecidableEq, Repr

/-- Model of `Cache[T]` from part_001: ordered points plus an expiry duration.
The `sync.RWMutex` field is concurrency plumbing and has no functional content. -/
structure Cache (T : Type) where
  points : List (Point T)
  expireDuration : Int
deriving DecidableEq, Repr

/-- The distinct error conditions of the cache analytics, one constructor per
distinct error message in part_001:
`typeErr` = "value is not a ... type", `divByZero` = "cannot calculate
percentage change from zero", `noBaseline` = "no data point found before the
specified time window", `invalidWindow` = "invalid time window format",
`indexOutOfRange` = "index out of range" / "byte index out of range",
`invalidBitIndex` = "bit index out of range (must be 0-7)". -/
inductive CacheErr where
  | typeErr
  | divByZero
  | noBaseline
  | invalidWindow
  | indexOutOfRange
  | invalidBitIndex
deriving DecidableEq, Repr

/-- Model of `Cache.Value()` / `Cache.Latest()`: newest point's value, or the zero
value of `T` (passed explicitly as `zero`) when empty. -/
def Cache.valueD {T : Type} (c : Cache T) (zero : T) : T :=
  match c.points.getLast? with
  | some p => p.value
  | none => zero

/-- Model of `Cache.Len()`: the number of points. -/
def Cache.lenC {T : Type} (c : Cache T) : Nat :=
  c.points.length

/-- The freshness test of `cleanExpiredPointsUnsafe`:
`point.Timestamp != nil && now.Sub(*point.Timestamp) <= c.ExpireDuration`. -/
def Point.isFresh {T : Type} (now expire : Int) (p : Point T) : Bool :=
  match p.timestamp with
  | some ts => decide (now - ts ≤ expire)
  | none => false

/-- Model of `Cache.cleanExpiredPointsUnsafe` (part_001 L648-663): nothing is removed
when `ExpireDuration <= 0`; otherwise keep exactly the fresh points. -/
def Cache.cleanExpiredPointsUnsafe {T : Type} (now : Int) (c : Cache T) : Cache T :=
  if c.expireDuration ≤ 0 then c
  else { c with points := c.points.filter (Point.isFresh now c.expireDuration) }

/-- The in-place update of `AddPoint`'s replacement loop: set the value of the
first point whose timestamp equals `ts`. -/
def updateValueAt {T : Type} (ts : Int) (v : T) : List (Point T) → List (Point T)
  | [] => []
  | p :: rest =>
    if p.timestamp = some ts then { p with value := v } :: rest
    else p :: updateValueAt ts v rest

/-- The replacement-loop guard of `AddPoint`: does some point carry timestamp `ts`? -/
def Cache.hasTimestamp {T : Type} (c : Cache T) (ts : Int) : Bool :=
  c.points.any (fun p => decide (p.timestamp = some ts))

/-- Model of `Cache.AddPoint` (part_001 L621-646).  A `nil` timestamp defaults to `now`;
if a point with an equal timestamp exists its value is replaced in place,
otherwise the point is appended; in both cases expired points are then evicted.
`now` stands for the ambient `time.Now()`. -/
def Cache.addPoint {T : Type} (c : Cache T) (v : T) (timestamp : Option Int) (now : Int) :
    Cache T :=
  let ts := timestamp.getD now
  if c.hasTimestamp ts then
    Cache.cleanExpiredPointsUnsafe now { c with points := updateValueAt ts v c.points }
  else
    Cache.cleanExpiredPointsUnsafe now { c with points := c.points ++ [⟨v, some ts⟩] }

/-- Model of `cache.Points[len(cache.Points)-2]`, the second-newest point, when it exists. -/
def secondLast? {α : Type} : List α → Option α
  | [] => none
  | [_] => none
  | [a, _] => some a
  | _ :: b :: rest => secondLast? (b :: rest)

/-- Model of `Cache.PctChange` (part_001 L154-185).  `asF` models the runtime cast
`any(x).(float64)`.  Fewer than two points yields 0; a zero previous value
yields 0 when the current value is also 0 and `divByZero` otherwise. -/
def Cache.pctChange {T : Type} (asF : T → Option F64) (c : Cache T) : Except CacheErr F64 :=
  if c.points.length < 2 then .ok 0
  else
    match (c.points.getLast?).bind (fun p => asF p.value),
          (secondLast? c.points).bind (fun p => asF p.value) with
    | some currentVal, some previousVal =>
      if previousVal = 0 then
        if currentVal = 0 then .ok 0 else .error .divByZero
      else .ok (((currentVal - previousVal) / previousVal) * 100)
    | _, _ => .error .typeErr

/-- Model of `Cache.Diff` (part_001 L188-211): difference between the two newest points. -/
def Cache.diff {T : Type} (asF : T → Option F64) (c : Cache T) : Except CacheErr F64 :=
  if c.points.length < 2 then .ok 0
  else
    match (c.points.getLast?).bind (fun p => asF p.value),
          (secondLast? c.points).bind (fun p => asF p.value) with
    | some currentVal, some previousVal => .ok (currentVal - previousVal)
    | _, _ => .error .typeErr

/-- Model of `Cache.Rising` (part_001 L450-471), translated with its exact branch
structure: the `else` arms of both casts return the "value is not a bool type"
error, so any newest value other than `true`, or any second-newest value other
than `false`, falls into an error arm. -/
def Cache.rising {T : Type} (asB : T → Option Bool) (c : Cache T) : Except CacheErr Bool :=
  if c.points.length < 2 then .ok false
  else
    match (c.points.getLast?).bind (fun p => asB p.value) with
    | some true =>
      match (secondLast? c.points).bind (fun p => asB p.value) with
      | some false => .ok true
      | _ => .error .typeErr
    | _ => .error .typeErr

/-- Model of `Cache.Falling` (part_001 L473-494), with the same branch structure as
`Cache.rising`. -/
def Cache.falling {T : Type} (asB : T → Option Bool) (c : Cache T) : Except CacheErr Bool :=
  if c.points.length < 2 then .ok false
  else
    match (c.points.getLast?).bind (fun p => asB p.value) with
    | some false =>
      match (secondLast? c.points).bind (fun p => asB p.value) with
      | some true => .ok true
      | _ => .error .typeErr
    | _ => .error .typeErr

/-- Model of `Cache.getPointsInWindow` (part_001 L389-421).  `window` is the outcome of
`time.ParseDuration` (`none` = parse failure, which returns all points);
on success, keep in original order the points with a non-nil timestamp
strictly after `now − duration`. -/
def Cache.getPointsInWindow {T : Type} (c : Cache T) (window : Option Int) (now : Int) :
    List (Point T) :=
  if c.points.length = 0 then []
  else
    match window with
    | none => c.points
    | some duration =>
      c.points.filter (fun p =>
        match p.timestamp with
        | some ts => decide (now - duration < ts)
        | none => false)

/-- The summation loop of `Cache.MA` over a point list, failing on the first
value that is not a float64. -/
def sumFloats {T : Type} (asF : T → Option F64) : List (Point T) → Except CacheErr F64
  | [] => .ok 0
  | p :: rest =>
    match asF p.value with
    | some v => (sumFloats asF rest).map (fun s => v + s)
    | none => .error .typeErr

/-- The body of `Cache.MA` applied to an explicit point list. -/
def maOf {T : Type} (asF : T → Option F64) (points : List (Point T)) : Except CacheErr F64 :=
  if points.length = 0 then .ok 0
  else
    match sumFloats asF points with
    | .ok sum => .ok (sum / (points.length : F64))
    | .error e => .error e

/-- Model of `Cache.MA` (part_001 L95-112): mean of the values in the window. -/
def Cache.ma {T : Type} (asF : T → Option F64) (c : Cache T) (window : Option Int)
    (now : Int) : Except CacheErr F64 :=
  maOf asF (c.getPointsInWindow window now)

/-- The transition-counting loop of `Cache.Count`: one count for the first
point and one more for every point whose value differs from its predecessor.
`eqT` models `isValueEqual`. -/
def countOf {T : Type} (eqT : T → T → Bool) (points : List (Point T)) : Nat :=
  if points.length ≤ 1 then points.length
  else 1 + countTransitions eqT points
where
  countTransitions (eqT : T → T → Bool) : List (Point T) → Nat
    | a :: b :: rest =>
      (if eqT b.value a.value then 0 else 1) + countTransitions eqT (b :: rest)
    | _ => 0

/-- Model of `Cache.Count` (part_001 L368-385): run-length transition count in the window. -/
def Cache.countW {T : Type} (eqT : T → T → Bool) (c : Cache T) (window : Option Int)
    (now : Int) : Nat :=
  countOf eqT (c.getPointsInWindow window now)

/-- The pair-scanning loop of `Cache.RC` (false→true transitions), failing on
any non-bool value. -/
def risingTransitions {T : Type} (asB : T → Option Bool) : List (Point T) → Except CacheErr Nat
  | a :: b :: rest =>
    match asB a.value, asB b.value with
    | some prevVal, some currVal =>
      (risingTransitions asB (b :: rest)).map
        (fun n => (if !prevVal && currVal then 1 else 0) + n)
    | _, _ => .error .typeErr
  | _ => .ok 0

/-- The body of `Cache.RC` over an explicit point list. -/
def rcOf {T : Type} (asB : T → Option Bool) (points : List (Point T)) : Except CacheErr Nat :=
  if points.length < 2 then .ok 0
  else
    match points.head?.bind (fun p => asB p.value) with
    | none => .error .typeErr
    | some _ => risingTransitions asB points

/-- Model of `Cache.RC` (part_001 L497-524): rising-edge count in the window. -/
def Cache.rcW {T : Type} (asB : T → Option Bool) (c : Cache T) (window : Option Int)
    (now : Int) : Except CacheErr Nat :=
  rcOf asB (c.getPointsInWindow window now)

/-- The pair-scanning loop of `Cache.FC` (true→false transitions). -/
def fallingTransitions {T : Type} (asB : T → Option Bool) : List (Point T) → Except CacheErr Nat
  | a :: b :: rest =>
    match asB a.value, asB b.value with
    | some prevVal, some currVal =>
      (fallingTransitions asB (b :: rest)).map
        (fun n => (if prevVal && !currVal then 1 else 0) + n)
    | _, _ => .error .typeErr
  | _ => .ok 0

/-- The body of `Cache.FC` over an explicit point list. -/
def fcOf {T : Type} (asB : T → Option Bool) (points : List (Point T)) : Except CacheErr Nat :=
  if points.length < 2 then .ok 0
  else
    match points.head?.bind (fun p => asB p.value) with
    | none => .error .typeErr
    | some _ => fallingTransitions asB points

/-- Model of `Cache.FC` (part_001 L527-554): falling-edge count in the window. -/
def Cache.fcW {T : Type} (asB : T → Option Bool) (c : Cache T) (window : Option Int)
    (now : Int) : Except CacheErr Nat :=
  fcOf asB (c.getPointsInWindow window now)

/-- The backwards baseline search of `PctChangeSince`/`DiffSince`: walk the
given (already reversed, newest first) list for the first point with a non-nil
timestamp strictly before `target`; cast failure on that point is an error. -/
def findBaseline {T : Type} (asF : T → Option F64) (target : Int) :
    List (Point T) → Except CacheErr (Option F64)
  | [] => .ok none
  | p :: rest =>
    match p.timestamp with
    | some ts =>
      if ts < target then
        match asF p.value with
        | some v => .ok (some v)
        | none => .error .typeErr
      else findBaseline asF target rest
    | none => findBaseline asF target rest

/-- Model of `Cache.PctChangeSince` (part_001 L253-312).  Note that unlike the
window-based analytics it parses the window itself and returns the
"invalid time window format" error on parse failure (`window = none`). -/
def Cache.pctChangeSince {T : Type} (asF : T → Option F64) (c : Cache T)
    (window : Option Int) (now : Int) : Except CacheErr F64 :=
  if c.points.length = 0 then .ok 0
  else
    match (c.points.getLast?).bind (fun p => asF p.value) with
    | none => .error .typeErr
    | some currentVal =>
      match window with
      | none => .error .invalidWindow
      | some duration =>
        match findBaseline asF (now - duration) c.points.reverse with
        | .error e => .error e
        | .ok none => .error .noBaseline
        | .ok (some baseVal) =>
          if baseVal = 0 then
            if currentVal = 0 then .ok 0 else .error .divByZero
          else .ok (((currentVal - baseVal) / baseVal) * 100)

/-- Model of `Cache.DiffSince` (part_001 L315-366), with the same structure as
`Cache.pctChangeSince` but no zero-baseline rule. -/
def Cache.diffSince {T : Type} (asF : T → Option F64) (c : Cache T)
    (window : Option Int) (now : Int) : Except CacheErr F64 :=
  if c.points.length = 0 then .ok 0
  else
    match (c.points.getLast?).bind (fun p => asF p.value) with
    | none => .error .typeErr
    | some currentVal =>
      match window with
      | none => .error .invalidWindow
      | some duration =>
        match findBaseline asF (now - duration) c.points.reverse with
        | .error e => .error e
        | .ok none => .error .noBaseline
        | .ok (some baseVal) => .ok (currentVal - baseVal)

/-- Model of `Cache.Bit` (part_001 L560-587): the newest byte slice viewed as a flat
bit array.  The emptiness check precedes the cast and both range checks. -/
def Cache.bit {T : Type} (asBytes : T → Option (List Nat)) (c : Cache T) (index : Int) :
    Except CacheErr Bool :=
  match c.points.getLast? with
  | none => .ok false
  | some p =>
    match asBytes p.value with
    | some val =>
      if 0 ≤ index ∧ index < (val.length : Int) * 8 then
        let byteIndex := index.toNat / 8
        let bitIndex := index.toNat % 8
        if byteIndex < val.length then .ok ((val.getD byteIndex 0).testBit bitIndex)
        else .error .indexOutOfRange
      else .error .indexOutOfRange
    | none => .error .typeErr

/-- Model of `Cache.ByteBit` (part_001 L591-619): bit `i` (0-7) of byte `n` of the
newest byte slice.  The emptiness check precedes the cast and all validation. -/
def Cache.byteBit {T : Type} (asBytes : T → Option (List Nat)) (c : Cache T) (n i : Int) :
    Except CacheErr Bool :=
  match c.points.getLast? with
  | none => .ok false
  | some p =>
    match asBytes p.value with
    | some val =>
      if n < 0 ∨ (val.length : Int) ≤ n then .error .indexOutOfRange
      else if i < 0 ∨ 7 < i then .error .invalidBitIndex
      else .ok ((val.getD n.toNat 0).testBit i.toNat)
    | none => .error .typeErr

/-- The dynamic `Variable.Cache any` field: one of the four supported generic
cache instantiations (the Go `default` arm is outside this closed model). -/
inductive CacheAny where
  | f (c : Cache F64)
  | b (c : Cache Bool)
  | s (c : Cache String)
  | y (c : Cache (List Nat))
deriving DecidableEq, Repr

/-- The dynamic `Variable.LatestPush any` field: a point of one of the four
canonical types. -/
inductive PointAny where
  | f (p : Point F64)
  | b (p : Point Bool)
  | s (p : Point String)
  | y (p : Point (List Nat))
deriving DecidableEq, Repr

/-- A dynamically typed canonical value, as carried by `PushValue.Value any`. -/
inductive VAny where
  | f (x : F64)
  | b (x : Bool)
  | s (x : String)
  | y (x : List Nat)
deriving DecidableEq, Repr

/-- Model of `PushValue` (part_004): one value destined for the publish sink. -/
structure PushValue where
  value : VAny
  timestamp : Option Int
deriving DecidableEq, Repr

/-- The fields of `Variable` (variable.go L12-34) that the change detector and
publish scheduler read or write.  `latestPush` is the `LatestPush any` field
mutated by `GetPushValues` (it is referenced by part_000; the field itself is
declared in repository code not present under `src/`). -/
structure Variable where
  diffThreshold : Option F64
  pctThreshold : Option F64
  publishCycle : Option Int
  cache : Option CacheAny
  latestPush : Option PointAny
deriving DecidableEq, Repr

/-- The element-wise byte comparison loop of `ChangedWithLatestPushValue`
(part_000 L99-107): lengths first, then each index. -/
def bytesNeGo (a b : List Nat) : Bool :=
  if a.length ≠ b.length then true
  else (a.zip b).any (fun q => decide (q.1 ≠ q.2))

/-- Model of `Variable.ChangedWithLatestPushValue` (part_000 L61-112).  No cache →
false; nothing ever published → true; a float cache honours the absolute
threshold first, else the percentage threshold (with the zero-baseline
convention using `maxFloat64`), else exact inequality; bool/string/byte caches
use exact (element-wise) inequality; any type mismatch between the cache and
the stored point → true. -/
def Variable.changedWithLatestPushValue (v : Variable) : Bool :=
  match v.cache with
  | none => false
  | some ca =>
    match v.latestPush with
    | none => true
    | some lp =>
      match ca, lp with
      | .f c, .f latestPush =>
        match v.diffThreshold with
        | some d => decide (|c.valueD 0 - latestPush.value| ≥ d)
        | none =>
          match v.pctThreshold with
          | some pt =>
            let percentageChange :=
              if latestPush.value = 0 then
                if c.valueD 0 = 0 then 0 else maxFloat64
              else ((c.valueD 0 - latestPush.value) / latestPush.value) * 100
            decide (|percentageChange| ≥ pt)
          | none => decide (c.valueD 0 ≠ latestPush.value)
      | .b c, .b latestPush => decide (c.valueD false ≠ latestPush.value)
      | .s c, .s latestPush => decide (c.valueD "" ≠ latestPush.value)
      | .y c, .y latestPush => bytesNeGo (c.valueD []) latestPush.value
      | _, _ => true

/-- Modelled from the spec: `Cache.PushValue` is code of this repository that
is not present under `src/` (only its caller `GetPushValues` in part_000 is).
Per §4.2 (`Point()` returns a copy of the newest point, absent if empty) and
§4.4 (emission pushes the newest point's value and timestamp), it returns the
newest point as a `PushValue`, or nothing when the cache is empty. -/
def Cache.pushValueWith {T : Type} (inj : T → VAny) (c : Cache T) : Option PushValue :=
  match c.points.getLast? with
  | some p => some ⟨inj p.value, p.timestamp⟩
  | none => none

/-- Model of `Variable.GetPushValues` (part_000 L9-59), returning the emitted push
values together with the updated variable (its `LatestPush` marker).  `gcd` and
`i` are the scheduler's gcd tick and tick index; `times` uses Go's truncated
division and `i % times` Go's truncated remainder.  Only the float branch
back-fills the second-newest point; every branch that pushes sets the marker to
the newest point. -/
def Variable.getPushValues (v : Variable) (gcd i : Int) : List PushValue × Variable :=
  match v.publishCycle with
  | none => ([], v)
  | some publishCycle =>
    match v.cache with
    | none => ([], v)
    | some ca =>
      let times := publishCycle.tdiv gcd
      let changed := v.changedWithLatestPushValue
      if (decide (publishCycle ≤ 0) && changed) ||
          (decide (times ≠ 0) && decide (i.tmod times = 0)) then
        match ca with
        | .f c =>
          match c.pushValueWith VAny.f with
          | some pushValue =>
            let backfill : List PushValue :=
              if changed && decide (2 ≤ c.points.length) then
                match v.latestPush with
                | some (.f p) =>
                  match secondLast? c.points with
                  | some sp =>
                    match p.timestamp, sp.timestamp with
                    | some t1, some t2 =>
                      if t1 ≠ t2 then [⟨VAny.f sp.value, sp.timestamp⟩] else []
                    | _, _ => []
                  | none => []
                | _ => []
              else []
            (backfill ++ [pushValue], { v with latestPush := (c.points.getLast?).map PointAny.f })
          | none => ([], v)
        | .b c =>
          match c.pushValueWith VAny.b with
          | some pushValue =>
            ([pushValue], { v with latestPush := (c.points.getLast?).map PointAny.b })
          | none => ([], v)
        | .s c =>
          match c.pushValueWith VAny.s with
          | some pushValue =>
            ([pushValue], { v with latestPush := (c.points.getLast?).map PointAny.s })
          | none => ([], v)
        | .y c =>
          match c.pushValueWith VAny.y with
          | some pushValue =>
            ([pushValue], { v with latestPush := (c.points.getLast?).map PointAny.y })
          | none => ([], v)
      else ([], v)

/-- The point count of the dynamically typed cache. -/
def CacheAny.lenA : CacheAny → Nat
  | .f c => c.lenC
  | .b c => c.lenC
  | .s c => c.lenC
  | .y c => c.lenC

/-- Model of `Bit` dispatched over the dynamic cache: the runtime cast
`any(x).([]byte)` succeeds exactly on the byte instantiation. -/
def CacheAny.bitA : CacheAny → Int → Except CacheErr Bool
  | .f c, index => c.bit (fun _ => none) index
  | .b c, index => c.bit (fun _ => none) index
  | .s c, index => c.bit (fun _ => none) index
  | .y c, index => c.bit some index

/-- Model of `ByteBit` dispatched over the dynamic cache. -/
def CacheAny.byteBitA : CacheAny → Int → Int → Except CacheErr Bool
  | .f c, n, i => c.byteBit (fun _ => none) n i
  | .b c, n, i => c.byteBit (fun _ => none) n i
  | .s c, n, i => c.byteBit (fun _ => none) n i
  | .y c, n, i => c.byteBit some n i

/-- The declared industrial data types (data_type.go L14-30). -/
inductive DataType where
  | dtBool
  | dtByte
  | dtWord
  | dtDWord
  | dtInt8
  | dtUInt8
  | dtInt16
  | dtUInt16
  | dtInt32
  | dtUInt32
  | dtInt64
  | dtUInt64
  | dtFloat32
  | dtFloat64
  | dtString
deriving DecidableEq, Repr

/-- A dynamically typed Go numeric value, as received by `ConvertFromAny`.
Signed machine integers are carried as `Int`, unsigned as `Nat`, floats as
exact rationals. -/
inductive GoNum where
  | gint (n : Int)
  | gint8 (n : Int)
  | gint16 (n : Int)
  | gint32 (n : Int)
  | gint64 (n : Int)
  | guint (n : Nat)
  | guint8 (n : Nat)
  | guint16 (n : Nat)
  | guint32 (n : Nat)
  | guint64 (n : Nat)
  | gfloat32 (x : F64)
  | gfloat64 (x : F64)
deriving DecidableEq, Repr

/-- The two failure shapes of `ConvertFromAny`: a value out of the target's
range ("cannot convert ... out of range") and a source type the target has no
case for ("cannot convert %T to ..."). -/
inductive ConvError where
  | outOfRange
  | badType
deriving DecidableEq, Repr

/-- Go's conversion `int8(x)` on an integer value: two's-complement
truncation to 8 bits. -/
def wrapToInt8 (n : Int) : Int :=
  (n + 128).emod 256 - 128

/-- Go's conversion `int16(x)` on an integer value. -/
def wrapToInt16 (n : Int) : Int :=
  (n + 32768).emod 65536 - 32768

/-- Go's conversion `int8(x)`/`int16(x)` on an in-range float: truncation
toward zero. -/
def truncF (q : F64) : Int :=
  if 0 ≤ q then q.floor else q.ceil

/-- Model of `DataType.ConvertFromAny` (data_type.go L179-853), restricted to the
`Int8` (L190-239), `Int16` (L240-274) and `UInt8` (L345-406) target cases with
numeric sources — the cases the range-check claim is decided on.  Each arm
mirrors the Go `switch` arm for that source type: where the Go arm performs a
range check, the model does; where the Go arm converts directly (every signed
integer source for `Int8`/`Int16`, every unsigned source for `Int16`), the
model applies the corresponding two's-complement wrap. -/
def DataType.convertFromAny : DataType → GoNum → Except ConvError GoNum
  | .dtInt8, .guint n => if 127 < n then .error .outOfRange else .ok (.gint8 (wrapToInt8 n))
  | .dtInt8, .guint8 n => if 127 < n then .error .outOfRange else .ok (.gint8 (wrapToInt8 n))
  | .dtInt8, .guint16 n => if 127 < n then .error .outOfRange else .ok (.gint8 (wrapToInt8 n))
  | .dtInt8, .guint32 n => if 127 < n then .error .outOfRange else .ok (.gint8 (wrapToInt8 n))
  | .dtInt8, .guint64 n => if 127 < n then .error .outOfRange else .ok (.gint8 (wrapToInt8 n))
  | .dtInt8, .gint n => .ok (.gint8 (wrapToInt8 n))
  | .dtInt8, .gint8 n => .ok (.gint8 n)
  | .dtInt8, .gint16 n => .ok (.gint8 (wrapToInt8 n))
  | .dtInt8, .gint32 n => .ok (.gint8 (wrapToInt8 n))
  | .dtInt8, .gint64 n => .ok (.gint8 (wrapToInt8 n))
  | .dtInt8, .gfloat32 x =>
    if x < -128 ∨ 127 < x then .error .outOfRange else .ok (.gint8 (truncF x))
  | .dtInt8, .gfloat64 x =>
    if x < -128 ∨ 127 < x then .error .outOfRange else .ok (.gint8 (truncF x))
  | .dtInt16, .guint n => .ok (.gint16 (wrapToInt16 n))
  | .dtInt16, .guint8 n => .ok (.gint16 (wrapToInt16 n))
  | .dtInt16, .guint16 n => .ok (.gint16 (wrapToInt16 n))
  | .dtInt16, .guint32 n => .ok (.gint16 (wrapToInt16 n))
  | .dtInt16, .guint64 n => .ok (.gint16 (wrapToInt16 n))
  | .dtInt16, .gint n => .ok (.gint16 (wrapToInt16 n))
  | .dtInt16, .gint8 n => .ok (.gint16 (wrapToInt16 n))
  | .dtInt16, .gint16 n => .ok (.gint16 n)
  | .dtInt16, .gint32 n => .ok (.gint16 (wrapToInt16 n))
  | .dtInt16, .gint64 n => .ok (.gint16 (wrapToInt16 n))
  | .dtInt16, .gfloat32 x =>
    if x < -32768 ∨ 32767 < x then .error .outOfRange else .ok (.gint16 (truncF x))
  | .dtInt16, .gfloat64 x =>
    if x < -32768 ∨ 32767 < x then .error .outOfRange else .ok (.gint16 (truncF x))
  | .dtUInt8, .gint n =>
    if n < 0 ∨ 255 < n then .error .outOfRange else .ok (.guint8 n.toNat)
  | .dtUInt8, .gint8 n =>
    if n < 0 then .error .outOfRange else .ok (.guint8 n.toNat)
  | .dtUInt8, .gint16 n =>
    if n < 0 ∨ 255 < n then .error .outOfRange else .ok (.guint8 n.toNat)
  | .dtUInt8, .gint32 n =>
    if n < 0 ∨ 255 < n then .error .outOfRange else .ok (.guint8 n.toNat)
  | .dtUInt8, .gint64 n =>
    if n < 0 ∨ 255 < n then .error .outOfRange else .ok (.guint8 n.toNat)
  | .dtUInt8, .guint n => if 255 < n then .error .outOfRange else .ok (.guint8 n)
  | .dtUInt8, .guint8 n => .ok (.guint8 n)
  | .dtUInt8, .guint16 n => if 255 < n then .error .outOfRange else .ok (.guint8 n)
  | .dtUInt8, .guint32 n => if 255 < n then .error .outOfRange else .ok (.guint8 n)
  | .dtUInt8, .guint64 n => if 255 < n then .error .outOfRange else .ok (.guint8 n)
  | .dtUInt8, .gfloat32 x =>
    if x < 0 ∨ 255 < x then .error .outOfRange else .ok (.guint8 (truncF x).toNat)
  | .dtUInt8, .gfloat64 x =>
    if x < 0 ∨ 255 < x then .error .outOfRange else .ok (.guint8 (truncF x).toNat)
  | _, _ => .error .badType

/-! Helper lemmas about the cache mutation primitives. -/

theorem updateValueAt_map_timestamp {T : Type} (ts : Int) (v : T) (l : List (Point T)) :
    (updateValueAt ts v l).map Point.timestamp = l.map Point.timestamp := by
  induction l with
  | nil => rfl
  | cons p rest ih =>
    by_cases h : p.timestamp = some ts
    · simp [updateValueAt, h]
    · simp [updateValueAt, h, ih]

theorem value_of_mem_updateValueAt {T : Type} {ts : Int} {v : T} {l : List (Point T)}
    {p : Point T} (hnodup : (l.map Point.timestamp).Nodup)
    (hp : p ∈ updateValueAt ts v l) (hts : p.timestamp = some ts) : p.value = v := by
  induction l with
  | nil => simp [updateValueAt] at hp
  | cons q rest ih =>
    simp only [List.map_cons, List.nodup_cons] at hnodup
    by_cases h : q.timestamp = some ts
    · rw [updateValueAt, if_pos h] at hp
      rcases List.mem_cons.mp hp with rfl | hmem
      · rfl
      · exact absurd (by rw [h, ← hts]; exact List.mem_map_of_mem Point.timestamp hmem)
          hnodup.1
    · rw [updateValueAt, if_neg h] at hp
      rcases List.mem_cons.mp hp with rfl | hmem
      · exact absurd hts h
      · exact ih hnodup.2 hmem

theorem isFresh_eq_true_iff {T : Type} {now e : Int} {p : Point T} :
    p.isFresh now e = true ↔ ∃ t, p.timestamp = some t ∧ now - t ≤ e := by
  cases h : p.timestamp <;> simp [Point.isFresh, h]

theorem hasTimestamp_eq_false_iff {T : Type} {c : Cache T} {ts : Int} :
    c.hasTimestamp ts = false ↔ ∀ p ∈ c.points, p.timestamp ≠ some ts := by
  simp [Cache.hasTimestamp, List.any_eq_true]

/-- C1: calling `AddPoint` with the timestamp of an existing point replaces
that point's value in place and appends nothing, but it does NOT always leave
`Len()` unchanged: the eviction pass that follows every mutation can remove
expired points, shrinking the cache.  Concretely, a cache with expiry 10
holding points at timestamps 0 and 100 goes from `Len() = 2` to `Len() = 1`
when `AddPoint` replaces the value at timestamp 100 at time 100. -/
theorem addPoint_replace_can_shrink_len :
    (Cache.mk [Point.mk (1 : F64) (some 0), Point.mk 2 (some 100)] 10).hasTimestamp 100
        = true ∧
      ((Cache.mk [Point.mk (1 : F64) (some 0), Point.mk 2 (some 100)] 10).addPoint 3
          (some 100) 100).lenC
        ≠ (Cache.mk [Point.mk (1 : F64) (some 0), Point.mk 2 (some 100)] 10).lenC := by
  decide

/-- C1 (amended): on a cache whose timestamps are pairwise distinct, calling
`AddPoint` with a timestamp equal to that of an existing point replaces that
point's value in place and appends nothing — the resulting timestamp sequence
is a subsequence of the original and `Len()` does not increase (it can
decrease through eviction) — and every point left at that timestamp carries the
new value; moreover every `AddPoint` call preserves timestamp distinctness, so
after any sequence of calls starting from a distinct-timestamp cache no two
points share a timestamp. -/
theorem addPoint_existing_timestamp_replaces_in_place {T : Type} (c : Cache T) (v : T)
    (ts now : Int) (hnodup : (c.points.map Point.timestamp).Nodup)
    (hex : c.hasTimestamp ts = true) :
    ((c.addPoint v (some ts) now).points.map Point.timestamp).Sublist
        (c.points.map Point.timestamp) ∧
      (c.addPoint v (some ts) now).lenC ≤ c.lenC ∧
      (∀ p ∈ (c.addPoint v (some ts) now).points, p.timestamp = some ts → p.value = v) ∧
      ∀ (v' : T) (tsOpt : Option Int) (now' : Int),
        ((c.addPoint v' tsOpt now').points.map Point.timestamp).Nodup := by
  have hsub : ∀ (v' : T) (ts' now' : Int), c.hasTimestamp ts' = true →
      ((c.addPoint v' (some ts') now').points.map Point.timestamp).Sublist
        (c.points.map Point.timestamp) := by
    intro v' ts' now' hex'
    unfold Cache.addPoint Cache.cleanExpiredPointsUnsafe
    simp only [Option.getD_some, hex', if_true]
    by_cases he : c.expireDuration ≤ 0
    · simp only [he, if_true]
      exact (updateValueAt_map_timestamp ts' v' c.points).symm ▸ List.Sublist.refl _
    · simp only [he, if_false]
      have h1 : (((updateValueAt ts' v' c.points).filter
          (Point.isFresh now' c.expireDuration)).map Point.timestamp).Sublist
          ((updateValueAt ts' v' c.points).map Point.timestamp) :=
        (List.filter_sublist _).map Point.timestamp
      exact (updateValueAt_map_timestamp ts' v' c.points) ▸ h1
  refine ⟨hsub v ts now hex, ?_, ?_, ?_⟩
  · have h := (hsub v ts now hex).length_le
    simpa [Cache.lenC] using h
  · intro p hp hts
    have hpmem : p ∈ updateValueAt ts v c.points := by
      revert hp
      unfold Cache.addPoint Cache.cleanExpiredPointsUnsafe
      simp only [Option.getD_some, hex, if_true]
      by_cases he : c.expireDuration ≤ 0
      · simp only [he, if_true]; exact id
      · simp only [he, if_false]
        exact fun hp => List.mem_of_mem_filter hp
    exact value_of_mem_updateValueAt hnodup hpmem hts
  · intro v' tsOpt now'
    unfold Cache.addPoint Cache.cleanExpiredPointsUnsafe
    by_cases hex' : c.hasTimestamp (tsOpt.getD now') = true
    · simp only [hex', if_true]
      by_cases he : c.expireDuration ≤ 0
      · simp only [he, if_true]
        exact (updateValueAt_map_timestamp _ v' c.points).symm ▸ hnodup
      · simp only [he, if_false]
        have h1 : (((updateValueAt (tsOpt.getD now') v' c.points).filter
            (Point.isFresh now' c.expireDuration)).map Point.timestamp).Sublist
            ((updateValueAt (tsOpt.getD now') v' c.points).map Point.timestamp) :=
          (List.filter_sublist _).map Point.timestamp
        refine List.Nodup.sublist h1 ?_
        exact (updateValueAt_map_timestamp _ v' c.points).symm ▸ hnodup
    · have hfa := hasTimestamp_eq_false_iff.mp (Bool.not_eq_true _ ▸ hex')
      have happ : ((c.points ++ [(⟨v', some (tsOpt.getD now')⟩ : Point T)]).map
          Point.timestamp).Nodup := by
        rw [List.map_append]
        refine List.Nodup.append hnodup (by simp) ?_
        intro x hx hy
        simp only [List.map_cons, List.map_nil, List.mem_singleton] at hy
        rcases List.mem_map.mp hx with ⟨p, hpmem, rfl⟩
        exact hfa p hpmem hy
      simp only [hex', if_false]
      by_cases he : c.expireDuration ≤ 0
      · simp only [he, if_true]
        exact happ
      · simp only [he, if_false]
        exact List.Nodup.sublist ((List.filter_sublist _).map Point.timestamp) happ

/-- C1 witness: a concrete replacement at an existing timestamp does not
increase `Len()`. -/
theorem addPoint_existing_timestamp_replaces_in_place_witness :
    ((Cache.mk [Point.mk (1 : F64) (some 0), Point.mk 2 (some 100)] 60).addPoint 3
        (some 100) 100).lenC
      ≤ (Cache.mk [Point.mk (1 : F64) (some 0), Point.mk 2 (some 100)] 60).lenC :=
  (addPoint_existing_timestamp_replaces_in_place
      (Cache.mk [Point.mk (1 : F64) (some 0), Point.mk 2 (some 100)] 60) 3 100 100
      (by decide) (by decide)).2.1

/-- C2: with expiry 0 — a non-negative duration — a freshly added point whose
timestamp (0) is older than `now − expiry` (5 − 0 = 5 > 0) nevertheless
remains in the cache, because `cleanExpiredPointsUnsafe` returns immediately
whenever `ExpireDuration <= 0`. -/
theorem addPoint_zero_expiry_keeps_stale_point :
    (0 : Int) ≤ (Cache.mk ([] : List (Point F64)) 0).expireDuration ∧
      Point.mk (1 : F64) (some 0)
          ∈ ((Cache.mk ([] : List (Point F64)) 0).addPoint 1 (some 0) 5).points ∧
      ¬ (Point.mk (1 : F64) (some 0)).isFresh 5
          (Cache.mk ([] : List (Point F64)) 0).expireDuration = true := by
  decide

/-- C2 (amended): after any `AddPoint` call on a cache with a POSITIVE expiry
duration, every remaining point is fresh — it has a timestamp `t` with
`now − t ≤ expiry`; when the expiry duration is zero or negative no point is
ever evicted: the timestamp sequence after the call is exactly the old one
(in-place replacement) or the old one with the new timestamp appended. -/
theorem addPoint_eviction_policy {T : Type} (c : Cache T) (v : T) (tsOpt : Option Int)
    (now : Int) :
    (0 < c.expireDuration →
        ∀ p ∈ (c.addPoint v tsOpt now).points, p.isFresh now c.expireDuration = true) ∧
      (c.expireDuration ≤ 0 →
        (c.addPoint v tsOpt now).points.map Point.timestamp = c.points.map Point.timestamp ∨
          (c.addPoint v tsOpt now).points.map Point.timestamp
            = c.points.map Point.timestamp ++ [some (tsOpt.getD now)]) := by
  constructor
  · intro hpos p hp
    have hnle : ¬ c.expireDuration ≤ 0 := not_le.mpr hpos
    revert hp
    unfold Cache.addPoint Cache.cleanExpiredPointsUnsafe
    by_cases hex : c.hasTimestamp (tsOpt.getD now) = true
    · simp only [hex, if_true, hnle, if_false]
      exact fun hp => List.of_mem_filter hp
    · simp only [hex, if_false, hnle]
      exact fun hp => List.of_mem_filter hp
  · intro hle
    unfold Cache.addPoint Cache.cleanExpiredPointsUnsafe
    by_cases hex : c.hasTimestamp (tsOpt.getD now) = true
    · simp only [hex, if_true, hle]
      exact Or.inl (updateValueAt_map_timestamp _ v c.points)
    · simp only [hex, Bool.false_eq_true, if_false, hle, if_true]
      exact Or.inr (by rw [List.map_append]; rfl)

/-- C2 witness: with positive expiry 10, the point at timestamp 5 that
survives an `AddPoint` at time 6 is fresh. -/
theorem addPoint_eviction_policy_witness :
    (Point.mk (2 : F64) (some 5)).isFresh 6
        (Cache.mk [Point.mk (1 : F64) (some 5)] 10).expireDuration = true :=
  (addPoint_eviction_policy (Cache.mk [Point.mk (1 : F64) (some 5)] 10) 2 (some 5) 6).1
    (by decide) (Point.mk (2 : F64) (some 5)) (by decide)

/-! Helper lemmas for the change detector. -/

theorem zipAnyNe_iff : ∀ (a b : List Nat), a.length = b.length →
    (((a.zip b).any fun q => decide (q.1 ≠ q.2)) = true ↔ a ≠ b)
  | [], [], _ => by simp
  | [], _ :: _, h => by simp at h
  | _ :: _, [], h => by simp at h
  | x :: xs, y :: ys, h => by
    have hlen : xs.length = ys.length := by simpa using h
    have ih := zipAnyNe_iff xs ys hlen
    by_cases hxy : x = y
    · subst hxy
      simp only [ne_eq] at ih ⊢
      simp at ih ⊢
      exact ih
    · simp [hxy]

theorem bytesNeGo_eq_true_iff (a b : List Nat) : bytesNeGo a b = true ↔ a ≠ b := by
  unfold bytesNeGo
  by_cases h : a.length = b.length
  · rw [if_neg (by simp [h])]
    exact zipAnyNe_iff a b h
  · rw [if_pos (by simpa using h)]
    constructor
    · intro _ hab
      exact h (by rw [hab])
    · intro _
      rfl

/-- The percentage-change convention of spec §4.3, stated from the spec's
words for comparison with the source: a last value of 0 yields 0% change if
the new value is also 0 and an effectively-infinite percentage change
(`math.MaxFloat64`) otherwise; otherwise `((new − last)/last)×100`. -/
def pctChangeSpec (lastVal newVal : F64) : F64 :=
  if lastVal = 0 then
    if newVal = 0 then 0 else maxFloat64
  else ((newVal - lastVal) / lastVal) * 100

/-- C3: `ChangedWithLatestPushValue` returns false when the variable has no
cache and true when nothing has ever been published; on a float64 cache it
decides by `|new − last| ≥ DiffThreshold` when the absolute threshold is set,
else by `|pctChangeSpec last new| ≥ PctThreshold` when the percentage
threshold is set, else by exact inequality; on bool, string and byte caches it
decides by exact (element-wise) value inequality, with both thresholds
ignored. -/
theorem changedWithLatestPushValue_spec (v : Variable) :
    (v.cache = none → v.changedWithLatestPushValue = false) ∧
      (v.cache.isSome → v.latestPush = none → v.changedWithLatestPushValue = true) ∧
      (∀ c p d, v.cache = some (.f c) → v.latestPush = some (.f p) →
        v.diffThreshold = some d →
        (v.changedWithLatestPushValue = true ↔ |c.valueD 0 - p.value| ≥ d)) ∧
      (∀ c p pt, v.cache = some (.f c) → v.latestPush = some (.f p) →
        v.diffThreshold = none → v.pctThreshold = some pt →
        (v.changedWithLatestPushValue = true ↔ |pctChangeSpec p.value (c.valueD 0)| ≥ pt)) ∧
      (∀ c p, v.cache = some (.f c) → v.latestPush = some (.f p) →
        v.diffThreshold = none → v.pctThreshold = none →
        (v.changedWithLatestPushValue = true ↔ c.valueD 0 ≠ p.value)) ∧
      (∀ c p, v.cache = some (.b c) → v.latestPush = some (.b p) →
        (v.changedWithLatestPushValue = true ↔ c.valueD false ≠ p.value)) ∧
      (∀ c p, v.cache = some (.s c) → v.latestPush = some (.s p) →
        (v.changedWithLatestPushValue = true ↔ c.valueD "" ≠ p.value)) ∧
      (∀ c p, v.cache = some (.y c) → v.latestPush = some (.y p) →
        (v.changedWithLatestPushValue = true ↔ c.valueD [] ≠ p.value)) := by
  refine ⟨?_, ?_, ?_, ?_, ?_, ?_, ?_, ?_⟩
  · intro h
    simp [Variable.changedWithLatestPushValue, h]
  · intro h1 h2
    rcases Option.isSome_iff_exists.mp h1 with ⟨ca, hca⟩
    simp [Variable.changedWithLatestPushValue, hca, h2]
  · intro c p d hca hlp hd
    simp [Variable.changedWithLatestPushValue, hca, hlp, hd]
  · intro c p pt hca hlp hd hpt
    simp [Variable.changedWithLatestPushValue, hca, hlp, hd, hpt, pctChangeSpec]
  · intro c p hca hlp hd hpt
    simp [Variable.changedWithLatestPushValue, hca, hlp, hd, hpt]
  · intro c p hca hlp
    simp [Variable.changedWithLatestPushValue, hca, hlp]
  · intro c p hca hlp
    simp [Variable.changedWithLatestPushValue, hca, hlp]
  · intro c p hca hlp
    simp [Variable.changedWithLatestPushValue, hca, hlp, bytesNeGo_eq_true_iff]

/-- C3 witness: a byte-cache variable with both thresholds set still decides
by element-wise inequality — newest value `[1,2]` against latest-published
`[1,3]` reports a change. -/
theorem changedWithLatestPushValue_spec_witness :
    (Variable.mk (some 10) (some 10) none
          (some (.y (Cache.mk [Point.mk [1, 2] (some 0)] 60)))
          (some (.y (Point.mk [1, 3] (some 0))))).changedWithLatestPushValue = true :=
  ((changedWithLatestPushValue_spec
        (Variable.mk (some 10) (some 10) none
          (some (.y (Cache.mk [Point.mk [1, 2] (some 0)] 60)))
          (some (.y (Point.mk [1, 3] (some 0)))))).2.2.2.2.2.2.2
      (Cache.mk [Point.mk [1, 2] (some 0)] 60) (Point.mk [1, 3] (some 0)) rfl rfl).mpr
    (by decide)

/-- C4: for a variable with a NEGATIVE publish cycle the claimed equivalence
"emits iff changed" fails for gcd ticks that divide into the cycle: with
`publishCycle = -10`, `gcdTick = 5`, `tickIndex = 0`, `times = -10 tdiv 5 = -2`
is nonzero and `0 mod -2 = 0`, so the cycle-boundary disjunct fires and a push
is emitted although `ChangedWithLatestPushValue` is false. -/
theorem getPushValues_negative_cycle_emits_without_change :
    (Variable.mk none none (some (-10))
          (some (.f (Cache.mk [Point.mk (1 : F64) (some 0)] 60)))
          (some (.f (Point.mk (1 : F64) (some 0))))).changedWithLatestPushValue = false ∧
      ((Variable.mk none none (some (-10))
            (some (.f (Cache.mk [Point.mk (1 : F64) (some 0)] 60)))
            (some (.f (Point.mk (1 : F64) (some 0))))).getPushValues 5 0).1 ≠ [] := by
  decide

/-- C4 (amended): for a variable with `publishCycle ≤ 0` whose cycle-to-tick
ratio `publishCycle tdiv gcdTick` is 0 (in particular a zero cycle with any
nonzero tick, or a negative cycle smaller in magnitude than the tick), and
which has a supported cache holding at least one point, `GetPushValues` emits
at a tick exactly when `ChangedWithLatestPushValue` is true at that tick. -/
theorem getPushValues_nonpositive_cycle_emits_iff_changed
    (v : Variable) (gcd i pc : Int) (ca : CacheAny)
    (hpc : v.publishCycle = some pc) (hle : pc ≤ 0)
    (htimes : pc.tdiv gcd = 0) (hca : v.cache = some ca) (hlen : ca.lenA ≠ 0) :
    ((v.getPushValues gcd i).1 ≠ [] ↔ v.changedWithLatestPushValue = true) := by
  have h1 : (decide (pc ≤ 0)) = true := decide_eq_true hle
  have h2 : (decide ((0 : Int) ≠ 0)) = false := by simp
  unfold Variable.getPushValues
  rw [hpc, hca]
  simp only [htimes, h1, h2, Bool.true_and, Bool.false_and, Bool.or_false]
  cases hch : v.changedWithLatestPushValue with
  | false =>
    simp [hch]
  | true =>
    simp only [if_true]
    cases ca with
    | f c =>
      have hnil : c.points ≠ [] := by
        simpa [CacheAny.lenA, Cache.lenC] using hlen
      obtain ⟨p, hp⟩ := Option.isSome_iff_exists.mp (List.getLast?_isSome.mpr hnil)
      simp [Cache.pushValueWith, hp]
    | b c =>
      have hnil : c.points ≠ [] := by
        simpa [CacheAny.lenA, Cache.lenC] using hlen
      obtain ⟨p, hp⟩ := Option.isSome_iff_exists.mp (List.getLast?_isSome.mpr hnil)
      simp [Cache.pushValueWith, hp]
    | s c =>
      have hnil : c.points ≠ [] := by
        simpa [CacheAny.lenA, Cache.lenC] using hlen
      obtain ⟨p, hp⟩ := Option.isSome_iff_exists.mp (List.getLast?_isSome.mpr hnil)
      simp [Cache.pushValueWith, hp]
    | y c =>
      have hnil : c.points ≠ [] := by
        simpa [CacheAny.lenA, Cache.lenC] using hlen
      obtain ⟨p, hp⟩ := Option.isSome_iff_exists.mp (List.getLast?_isSome.mpr hnil)
      simp [Cache.pushValueWith, hp]

/-- C4 witness: a zero-cycle bool variable that has never published (hence
changed) emits at gcd tick 5, tick index 3. -/
theorem getPushValues_nonpositive_cycle_emits_iff_changed_witness :
    ((Variable.mk none none (some 0)
          (some (.b (Cache.mk [Point.mk true (some 0)] 60))) none).getPushValues 5 3).1
      ≠ [] :=
  (getPushValues_nonpositive_cycle_emits_iff_changed
      (Variable.mk none none (some 0)
        (some (.b (Cache.mk [Point.mk true (some 0)] 60))) none)
      5 3 0 (.b (Cache.mk [Point.mk true (some 0)] 60))
      rfl (by decide) (by decide) rfl (by decide)).mpr (by decide)

/-- C5: a bool-cache variable meeting every condition of the claim — emission
fires, the cache changed since last publish, it holds two points, and the
second-newest point's timestamp (0) differs from the recorded latest-published
timestamp (5) — emits only the newest point: the back-fill push exists only in
the float64 branch of `GetPushValues`. -/
theorem getPushValues_bool_cache_never_backfills :
    (Variable.mk none none (some 10)
          (some (.b (Cache.mk [Point.mk false (some 0), Point.mk true (some 10)] 60)))
          (some (.b (Point.mk false (some 5))))).changedWithLatestPushValue = true ∧
      2 ≤ (Cache.mk [Point.mk false (some 0), Point.mk true (some 10)] 60).lenC ∧
      secondLast? (Cache.mk [Point.mk false (some 0), Point.mk true (some 10)] 60).points
        = some (Point.mk false (some 0)) ∧
      ((Variable.mk none none (some 10)
            (some (.b (Cache.mk [Point.mk false (some 0), Point.mk true (some 10)] 60)))
            (some (.b (Point.mk false (some 5))))).getPushValues 10 0).1
        = [PushValue.mk (VAny.b true) (some 10)] := by
  decide

/-- C5 (amended): only float64-cache variables back-fill: when a float64-cache
variable emits while changed with at least two cached points, a recorded
float latest-push point, and timestamps on both that differ, the emitted
sequence is exactly the second-newest point followed by the newest; for every
supported cache type the latest-published marker is set to the newest cached
point whenever a push occurred; bool, string and byte-cache variables emit at
most one value per tick (never a back-fill). -/
theorem getPushValues_backfill_spec (v : Variable) (gcd i : Int) :
    (∀ pc c p sp lastp t1 t2,
        v.publishCycle = some pc → v.cache = some (.f c) →
        v.latestPush = some (.f p) →
        (v.getPushValues gcd i).1 ≠ [] →
        v.changedWithLatestPushValue = true →
        2 ≤ c.points.length →
        secondLast? c.points = some sp →
        c.points.getLast? = some lastp →
        p.timestamp = some t1 → sp.timestamp = some t2 → t1 ≠ t2 →
        (v.getPushValues gcd i).1
          = [PushValue.mk (VAny.f sp.value) sp.timestamp,
              PushValue.mk (VAny.f lastp.value) lastp.timestamp]) ∧
      (∀ c lastp, v.cache = some (.f c) → c.points.getLast? = some lastp →
        (v.getPushValues gcd i).1 ≠ [] →
        (v.getPushValues gcd i).2.latestPush = some (.f lastp)) ∧
      (∀ c lastp, v.cache = some (.b c) → c.points.getLast? = some lastp →
        (v.getPushValues gcd i).1 ≠ [] →
        (v.getPushValues gcd i).2.latestPush = some (.b lastp)) ∧
      (∀ c lastp, v.cache = some (.s c) → c.points.getLast? = some lastp →
        (v.getPushValues gcd i).1 ≠ [] →
        (v.getPushValues gcd i).2.latestPush = some (.s lastp)) ∧
      (∀ c lastp, v.cache = some (.y c) → c.points.getLast? = some lastp →
        (v.getPushValues gcd i).1 ≠ [] →
        (v.getPushValues gcd i).2.latestPush = some (.y lastp)) ∧
      (∀ c, v.cache = some (.b c) → (v.getPushValues gcd i).1.length ≤ 1) ∧
      (∀ c, v.cache = some (.s c) → (v.getPushValues gcd i).1.length ≤ 1) ∧
      (∀ c, v.cache = some (.y c) → (v.getPushValues gcd i).1.length ≤ 1) := by
  refine ⟨?_, ?_, ?_, ?_, ?_, ?_, ?_, ?_⟩
  · intro pc c p sp lastp t1 t2 hpc hca hlp hnil hch hlen hsp hlast ht1 ht2 hne
    have hlen' : decide (2 ≤ c.points.length) = true := decide_eq_true hlen
    simp only [Variable.getPushValues, hpc, hca, hch, hlen', Bool.and_self, hlp, hsp,
      ht1, ht2, Cache.pushValueWith, hlast, ne_eq, hne, not_false_eq_true,
      if_true] at hnil ⊢
    by_cases hcond : (decide (pc ≤ 0) && true ||
        decide (pc.tdiv gcd ≠ 0) && decide (i.tmod (pc.tdiv gcd) = 0)) = true
    · rw [if_pos hcond]
      rfl
    · rw [if_neg hcond] at hnil
      exact absurd rfl hnil
  · intro c lastp hca hlast hnil
    cases hpc : v.publishCycle with
    | none => simp [Variable.getPushValues, hpc] at hnil
    | some pc =>
      simp only [Variable.getPushValues, hpc, hca, Cache.pushValueWith, hlast] at hnil ⊢
      by_cases hcond : (decide (pc ≤ 0) && v.changedWithLatestPushValue ||
          decide (pc.tdiv gcd ≠ 0) && decide (i.tmod (pc.tdiv gcd) = 0)) = true
      · rw [if_pos hcond]
        rfl
      · rw [if_neg hcond] at hnil
        exact absurd rfl hnil
  · intro c lastp hca hlast hnil
    cases hpc : v.publishCycle with
    | none => simp [Variable.getPushValues, hpc] at hnil
    | some pc =>
      simp only [Variable.getPushValues, hpc, hca, Cache.pushValueWith, hlast] at hnil ⊢
      by_cases hcond : (decide (pc ≤ 0) && v.changedWithLatestPushValue ||
          decide (pc.tdiv gcd ≠ 0) && decide (i.tmod (pc.tdiv gcd) = 0)) = true
      · rw [if_pos hcond]
        rfl
      · rw [if_neg hcond] at hnil
        exact absurd rfl hnil
  · intro c lastp hca hlast hnil
    cases hpc : v.publishCycle with
    | none => simp [Variable.getPushValues, hpc] at hnil
    | some pc =>
      simp only [Variable.getPushValues, hpc, hca, Cache.pushValueWith, hlast] at hnil ⊢
      by_cases hcond : (decide (pc ≤ 0) && v.changedWithLatestPushValue ||
          decide (pc.tdiv gcd ≠ 0) && decide (i.tmod (pc.tdiv gcd) = 0)) = true
      · rw [if_pos hcond]
        rfl
      · rw [if_neg hcond] at hnil
        exact absurd rfl hnil
  · intro c lastp hca hlast hnil
    cases hpc : v.publishCycle with
    | none => simp [Variable.getPushValues, hpc] at hnil
    | some pc =>
      simp only [Variable.getPushValues, hpc, hca, Cache.pushValueWith, hlast] at hnil ⊢
      by_cases hcond : (decide (pc ≤ 0) && v.changedWithLatestPushValue ||
          decide (pc.tdiv gcd ≠ 0) && decide (i.tmod (pc.tdiv gcd) = 0)) = true
      · rw [if_pos hcond]
        rfl
      · rw [if_neg hcond] at hnil
        exact absurd rfl hnil
  · intro c hca
    cases hlast : c.points.getLast? with
    | none =>
      cases hpc : v.publishCycle with
      | none => simp [Variable.getPushValues, hpc]
      | some pc =>
        simp only [Variable.getPushValues, hpc, hca, Cache.pushValueWith, hlast]
        split
        · simp
        · simp
    | some lastp =>
      cases hpc : v.publishCycle with
      | none => simp [Variable.getPushValues, hpc]
      | some pc =>
        simp only [Variable.getPushValues, hpc, hca, Cache.pushValueWith, hlast]
        split
        · simp
        · simp
  · intro c hca
    cases hlast : c.points.getLast? with
    | none =>
      cases hpc : v.publishCycle with
      | none => simp [Variable.getPushValues, hpc]
      | some pc =>
        simp only [Variable.getPushValues, hpc, hca, Cache.pushValueWith, hlast]
        split
        · simp
        · simp
    | some lastp =>
      cases hpc : v.publishCycle with
      | none => simp [Variable.getPushValues, hpc]
      | some pc =>
        simp only [Variable.getPushValues, hpc, hca, Cache.pushValueWith, hlast]
        split
        · simp
        · simp
  · intro c hca
    cases hlast : c.points.getLast? with
    | none =>
      cases hpc : v.publishCycle with
      | none => simp [Variable.getPushValues, hpc]
      | some pc =>
        simp only [Variable.getPushValues, hpc, hca, Cache.pushValueWith, hlast]
        split
        · simp
        · simp
    | some lastp =>
      cases hpc : v.publishCycle with
      | none => simp [Variable.getPushValues, hpc]
      | some pc =>
        simp only [Variable.getPushValues, hpc, hca, Cache.pushValueWith, hlast]
        split
        · simp
        · simp

/-- C5 witness: a concrete float64 variable that emits while changed, with two
cached points and a marker timestamp (5) differing from the second-newest
timestamp (0), pushes the second-newest point then the newest. -/
theorem getPushValues_backfill_spec_witness :
    ((Variable.mk none none (some 10)
            (some (.f (Cache.mk [Point.mk (1 : F64) (some 0), Point.mk 2 (some 10)] 60)))
            (some (.f (Point.mk (1 : F64) (some 5))))).getPushValues 10 0).1
      = [PushValue.mk (VAny.f 1) (some 0), PushValue.mk (VAny.f 2) (some 10)] :=
  (getPushValues_backfill_spec
        (Variable.mk none none (some 10)
          (some (.f (Cache.mk [Point.mk (1 : F64) (some 0), Point.mk 2 (some 10)] 60)))
          (some (.f (Point.mk (1 : F64) (some 5))))) 10 0).1
    10 (Cache.mk [Point.mk (1 : F64) (some 0), Point.mk 2 (some 10)] 60)
    (Point.mk (1 : F64) (some 5)) (Point.mk (1 : F64) (some 0)) (Point.mk (2 : F64) (some 10))
    5 0 rfl rfl rfl (by decide) (by decide) (by decide) (by decide) (by decide)
    rfl rfl (by decide)

/-- C6: `ConvertFromAny` does NOT range-check signed-integer sources into
narrower signed targets — converting the int16 value 300 to `Int8` silently
wraps to 44 instead of failing, and the uint16 value 65535 to `Int16` wraps to
-1; the checked style the claim describes does exist for other source/target
pairs (int16 300 to `UInt8` fails with an out-of-range error), which marks the
missing checks as a slip rather than a policy. -/
theorem convertFromAny_signed_narrowing_wraps :
    DataType.convertFromAny .dtInt8 (.gint16 300) = .ok (.gint8 44) ∧
      DataType.convertFromAny .dtInt16 (.guint16 65535) = .ok (.gint16 (-1)) ∧
      DataType.convertFromAny .dtUInt8 (.gint16 300) = .error .outOfRange :=
  ⟨rfl, rfl, rfl⟩

/-- A list with a second-to-last element has at least two elements. -/
theorem two_le_length_of_secondLast_eq_some {α : Type} :
    ∀ {l : List α} {a : α}, secondLast? l = some a → 2 ≤ l.length
  | [], _, h => by simp [secondLast?] at h
  | [_], _, h => by simp [secondLast?] at h
  | _ :: _ :: _, _, _ => by
    simp only [List.length_cons]
    omega

/-- C7: `PctChange()` on a float cache returns 0 without error when fewer than
two points are cached; with previous value 0 it returns 0 when the current
value is also 0 and the divide-by-zero error otherwise; with a nonzero
previous value it returns `((current − previous)/previous)×100`. -/
theorem pctChange_spec (c : Cache F64) :
    (c.points.length < 2 → Cache.pctChange some c = .ok 0) ∧
      (∀ sp lp, secondLast? c.points = some sp → c.points.getLast? = some lp →
        (sp.value = 0 → lp.value = 0 → Cache.pctChange some c = .ok 0) ∧
          (sp.value = 0 → lp.value ≠ 0 → Cache.pctChange some c = .error .divByZero) ∧
          (sp.value ≠ 0 →
            Cache.pctChange some c = .ok (((lp.value - sp.value) / sp.value) * 100))) := by
  constructor
  · intro h
    simp [Cache.pctChange, h]
  · intro sp lp hsp hlast
    have hlen := two_le_length_of_secondLast_eq_some hsp
    have hnlt : ¬ c.points.length < 2 := not_lt.mpr hlen
    refine ⟨?_, ?_, ?_⟩
    · intro h1 h2
      simp [Cache.pctChange, hnlt, hsp, hlast, h1, h2]
    · intro h1 h2
      simp [Cache.pctChange, hnlt, hsp, hlast, h1, h2]
    · intro h1
      simp [Cache.pctChange, hnlt, hsp, hlast, h1]

/-- C7 witness: on the concrete float cache (previous = 0, current = 5),
`PctChange()` fails with the divide-by-zero error. -/
theorem pctChange_spec_witness :
    Cache.pctChange some (Cache.mk [Point.mk (0 : F64) (some 0), Point.mk 5 (some 1)] 60)
      = .error .divByZero :=
  ((pctChange_spec (Cache.mk [Point.mk (0 : F64) (some 0), Point.mk 5 (some 1)] 60)).2
      (Point.mk (0 : F64) (some 0)) (Point.mk (5 : F64) (some 1)) rfl rfl).2.1
    rfl (by decide)

/-- C8: on a BOOL cache of two points whose newest value is false, `Rising()`
returns the "value is not a bool type" error instead of (false, no error), and
symmetrically `Falling()` errors when the newest value is true: the non-edge
branches of both functions fall into the type-error arms even though every
value is a bool (the genuine rising/falling edge still reports true without
error). -/
theorem rising_falling_error_on_bool_cache :
    Cache.rising some (Cache.mk [Point.mk true (some 0), Point.mk false (some 1)] 60)
        = .error .typeErr ∧
      Cache.falling some (Cache.mk [Point.mk false (some 0), Point.mk true (some 1)] 60)
        = .error .typeErr ∧
      Cache.rising some (Cache.mk [Point.mk false (some 0), Point.mk true (some 1)] 60)
        = .ok true ∧
      Cache.falling some (Cache.mk [Point.mk true (some 0), Point.mk false (some 1)] 60)
        = .ok true :=
  ⟨rfl, rfl, rfl, rfl⟩

/-- C9: `PctChangeSince` does NOT treat an unparsable window as "include all
points": on a nonempty float cache it fails with the invalid-window error. -/
theorem pctChangeSince_unparsable_window_fails :
    Cache.pctChangeSince some (Cache.mk [Point.mk (1 : F64) (some 0)] 60) none 0
      = .error .invalidWindow := rfl

/-- C9 (amended): the windowed operations built on `getPointsInWindow`
(`MA`, `Count`, `RC`, `FC`, and `StdDev`, which shares the same point
selection) treat an unparsable window as "include all points" — on parse
failure they are computed over all points, and on parse success over exactly
the points, in original order, whose timestamp is strictly after `now` minus
the parsed duration; `PctChangeSince` and `DiffSince`, however, parse the
window themselves and fail with the invalid-window error on an unparsable
window whenever the cache is nonempty (of float type). -/
theorem windowed_ops_window_fallback {T : Type} (c : Cache T) (cf : Cache F64) (now : Int) :
    (c.getPointsInWindow none now = c.points) ∧
      (∀ d, c.getPointsInWindow (some d) now
          = c.points.filter (fun p =>
              match p.timestamp with
              | some ts => decide (now - d < ts)
              | none => false)) ∧
      (∀ asF, Cache.ma asF c none now = maOf asF c.points) ∧
      (∀ eqT, Cache.countW eqT c none now = countOf eqT c.points) ∧
      (∀ asB, Cache.rcW asB c none now = rcOf asB c.points) ∧
      (∀ asB, Cache.fcW asB c none now = fcOf asB c.points) ∧
      (cf.points ≠ [] →
        Cache.pctChangeSince some cf none now = .error .invalidWindow ∧
          Cache.diffSince some cf none now = .error .invalidWindow) := by
  have hall : c.getPointsInWindow none now = c.points := by
    by_cases h : c.points.length = 0
    · simp [Cache.getPointsInWindow, h, List.length_eq_zero.mp h]
    · simp [Cache.getPointsInWindow, h]
  refine ⟨hall, ?_, ?_, ?_, ?_, ?_, ?_⟩
  · intro d
    by_cases h : c.points.length = 0
    · simp [Cache.getPointsInWindow, h, List.length_eq_zero.mp h]
    · simp [Cache.getPointsInWindow, h]
  · intro asF
    rw [Cache.ma, hall]
  · intro eqT
    rw [Cache.countW, hall]
  · intro asB
    rw [Cache.rcW, hall]
  · intro asB
    rw [Cache.fcW, hall]
  · intro hne
    obtain ⟨p, hp⟩ := Option.isSome_iff_exists.mp (List.getLast?_isSome.mpr hne)
    have h0 : ¬ cf.points.length = 0 := by
      simpa [List.length_eq_zero] using hne
    constructor
    · simp [Cache.pctChangeSince, h0, hp]
    · simp [Cache.diffSince, h0, hp]

/-- C9 witness: on a concrete one-point float cache, `PctChangeSince` with an
unparsable window returns the invalid-window error. -/
theorem windowed_ops_window_fallback_witness :
    Cache.pctChangeSince some (Cache.mk [Point.mk (2 : F64) (some 1)] 60) none 5
      = .error .invalidWindow :=
  ((windowed_ops_window_fallback (Cache.mk ([] : List (Point Bool)) 0)
        (Cache.mk [Point.mk (2 : F64) (some 1)] 60) 5).2.2.2.2.2.2 (by decide)).1

/-- C10: on an empty cache, `Bit` and `ByteBit` return false without error for
every index argument — the emptiness check short-circuits before the type
cast, the range check and the bit-index check — and consequently any
index-out-of-range or invalid-bit-index error can only arise from a cache
holding at least one point. -/
theorem bit_byteBit_empty_cache_spec (ca : CacheAny) (index n i : Int) :
    (ca.lenA = 0 → ca.bitA index = .ok false ∧ ca.byteBitA n i = .ok false) ∧
      (∀ e, ca.bitA index = .error e → ca.lenA ≠ 0) ∧
      (∀ e, ca.byteBitA n i = .error e → ca.lenA ≠ 0) := by
  have hempty : ca.lenA = 0 → ca.bitA index = .ok false ∧ ca.byteBitA n i = .ok false := by
    intro h0
    cases ca with
    | f c =>
      have hc : c.points = [] :=
        List.length_eq_zero.mp (by simpa [CacheAny.lenA, Cache.lenC] using h0)
      simp [CacheAny.bitA, CacheAny.byteBitA, Cache.bit, Cache.byteBit, hc]
    | b c =>
      have hc : c.points = [] :=
        List.length_eq_zero.mp (by simpa [CacheAny.lenA, Cache.lenC] using h0)
      simp [CacheAny.bitA, CacheAny.byteBitA, Cache.bit, Cache.byteBit, hc]
    | s c =>
      have hc : c.points = [] :=
        List.length_eq_zero.mp (by simpa [CacheAny.lenA, Cache.lenC] using h0)
      simp [CacheAny.bitA, CacheAny.byteBitA, Cache.bit, Cache.byteBit, hc]
    | y c =>
      have hc : c.points = [] :=
        List.length_eq_zero.mp (by simpa [CacheAny.lenA, Cache.lenC] using h0)
      simp [CacheAny.bitA, CacheAny.byteBitA, Cache.bit, Cache.byteBit, hc]
  refine ⟨hempty, ?_, ?_⟩
  · intro e he h0
    rcases hempty h0 with ⟨h1, _⟩
    rw [he] at h1
    exact Except.noConfusion h1
  · intro e he h0
    rcases hempty h0 with ⟨_, h2⟩
    rw [he] at h2
    exact Except.noConfusion h2

/-- C10 witness: an empty byte cache answers false without error at bit index
99, byte index -1 and bit position 12. -/
theorem bit_byteBit_empty_cache_spec_witness :
    CacheAny.bitA (.y (Cache.mk [] 60)) 99 = .ok false ∧
      CacheAny.byteBitA (.y (Cache.mk [] 60)) (-1) 12 = .ok false :=
  (bit_byteBit_empty_cache_spec (.y (Cache.mk [] 60)) 99 (-1) 12).1 (by decide)
